import Mathlib

/-!
Shallow embedding of the core logic of the Dev-Events application:
the Event/Booking document model of `src/database/booking.model.ts`
(slug generation, slug uniqueness resolution in the `pre("save")` hook,
date and time normalization, the booking referential-integrity hook)
and the `GET /api/events/[slug]` route handler of
`src/app/api/events/[slug]/route.ts`.

Strings are modelled with Lean `String`/`List Char`; JavaScript string
primitives used by the source (`trim`, `toLowerCase`, `split`,
`decodeURIComponent`, template interpolation of numbers) are modelled
explicitly below.  Lowercasing is modelled on the ASCII range, which is
exact for every character the slug and time patterns can accept.
-/

/-- The whitespace class recognized by JavaScript (`\s`, `String.prototype.trim`). -/
def isJsWs (c : Char) : Bool :=
  c == ' ' || c == '\t' || c == '\n' || c.toNat == 11 || c.toNat == 12 ||
  c == '\r' || c.toNat == 0xa0 || c.toNat == 0x1680 ||
  (0x2000 ≤ c.toNat && c.toNat ≤ 0x200a) ||
  c.toNat == 0x2028 || c.toNat == 0x2029 || c.toNat == 0x202f ||
  c.toNat == 0x205f || c.toNat == 0x3000 || c.toNat == 0xfeff

/-- JavaScript `String.prototype.trim`. -/
def jsTrim (s : String) : String :=
  ⟨((s.data.dropWhile isJsWs).reverse.dropWhile isJsWs).reverse⟩

/-- JavaScript `String.prototype.toLowerCase`, modelled on ASCII. -/
def jsToLower (s : String) : String :=
  ⟨s.data.map Char.toLower⟩

/-- Characters allowed inside a slug token: the class `[a-z0-9]`. -/
def isSlugChar (c : Char) : Bool :=
  ('a' ≤ c && c ≤ 'z') || ('0' ≤ c && c ≤ '9')

/-- The class `[0-9]` (JavaScript `\d`). -/
def isDigitChar (c : Char) : Bool :=
  '0' ≤ c && c ≤ '9'

/-- The decimal digit character for `n < 10`. -/
def digitChar (n : Nat) : Char :=
  Char.ofNat (48 + n)

/-- Decimal digit expansion of a natural number (fuel-driven so that it is
structurally recursive; `natToString` supplies sufficient fuel). -/
def natDigitsAux : Nat → Nat → List Char
  | 0, _ => []
  | fuel + 1, n =>
    if n < 10 then [digitChar n]
    else natDigitsAux fuel (n / 10) ++ [digitChar (n % 10)]

/-- JavaScript number-to-string conversion for a natural number
(decimal, no leading zeros), as used by the template literal
`` `${base}-${i}` `` in the event save hook. -/
def natToString (n : Nat) : String :=
  ⟨natDigitsAux (n + 1) n⟩

/-- JavaScript `String.prototype.padStart(k, "0")`. -/
def padZeros (k : Nat) (s : String) : String :=
  ⟨List.replicate (k - s.length) '0' ++ s.data⟩

/-! ## `slugify` (src/database/booking.model.ts)

`input.trim().toLowerCase()` followed by the three global replacements
`[^a-z0-9]+ → "-"`, `^-+|-+$ → ""`, `dash-runs-of-length-two-or-more → "-"`. -/

/-- The global replacement `[^a-z0-9]+ → "-"`: every maximal run of
non-alphanumeric characters becomes a single dash.  The flag records
whether we are inside such a run (its dash already emitted). -/
def replaceRunsAux (inRun : Bool) : List Char → List Char
  | [] => []
  | c :: r =>
    if isSlugChar c then c :: replaceRunsAux false r
    else if inRun then replaceRunsAux true r
    else '-' :: replaceRunsAux true r

/-- The global replacement `^-+|-+$ → ""`: strip leading and trailing dashes. -/
def stripEdgeDashes (l : List Char) : List Char :=
  ((l.dropWhile (fun c => c == '-')).reverse.dropWhile (fun c => c == '-')).reverse

/-- The global replacement of dash runs of length two or more with a single
dash.  The flag records whether the previous character was a dash. -/
def collapseDashesAux (prevDash : Bool) : List Char → List Char
  | [] => []
  | c :: r =>
    if c == '-' then
      if prevDash then collapseDashesAux true r
      else '-' :: collapseDashesAux true r
    else c :: collapseDashesAux false r

/-- `slugify` of src/database/booking.model.ts. -/
def slugify (input : String) : String :=
  ⟨collapseDashesAux false
    (stripEdgeDashes (replaceRunsAux false (jsToLower (jsTrim input)).data))⟩

/-! ## Route slug validation (src/app/api/events/[slug]/route.ts)

`/^[a-z0-9]+(?:-[a-z0-9]+)*$/` -/

/-- Deterministic acceptor for `^[a-z0-9]+(?:-[a-z0-9]+)*$`.
`needTok = true` means the next character must start an alphanumeric
token (at the beginning and right after a dash). -/
def slugAccept : Bool → List Char → Bool
  | needTok, [] => !needTok
  | needTok, c :: r =>
    if c == '-' then !needTok && slugAccept true r
    else isSlugChar c && slugAccept false r

/-- `isValidSlug` of src/app/api/events/[slug]/route.ts. -/
def isValidSlug (s : String) : Bool :=
  slugAccept true s.data

/-! ## `decodeURIComponent`

Modelled at the byte level: the input's UTF-8 bytes with every `%XX`
escape replaced by the byte `XX` must form valid UTF-8; otherwise the
JavaScript builtin throws `URIError` (modelled as `none`). -/

/-- Hexadecimal digit value (case-insensitive). -/
def hexVal (c : Char) : Option Nat :=
  if '0' ≤ c && c ≤ '9' then some (c.toNat - 48)
  else if 'A' ≤ c && c ≤ 'F' then some (c.toNat - 55)
  else if 'a' ≤ c && c ≤ 'f' then some (c.toNat - 87)
  else none

/-- UTF-8 encoding of a single character, as a list of byte values. -/
def utf8EncodeChar (c : Char) : List Nat :=
  let n := c.toNat
  if n < 0x80 then [n]
  else if n < 0x800 then [0xc0 + n / 64, 0x80 + n % 64]
  else if n < 0x10000 then [0xe0 + n / 4096, 0x80 + n / 64 % 64, 0x80 + n % 64]
  else [0xf0 + n / 262144, 0x80 + n / 4096 % 64, 0x80 + n / 64 % 64, 0x80 + n % 64]

/-- UTF-8 encoding of a string as a list of byte values. -/
def utf8Encode (l : List Char) : List Nat :=
  l.flatMap utf8EncodeChar

/-- A UTF-8 continuation byte. -/
def isCont (b : Nat) : Bool :=
  0x80 ≤ b && b < 0xc0

/-- Strict UTF-8 decoding (rejects overlong forms, surrogates and
out-of-range code points, as `decodeURIComponent` does). -/
def utf8Decode : List Nat → Option (List Char)
  | [] => some []
  | b :: r =>
    if b < 0x80 then
      (utf8Decode r).map (fun cs => Char.ofNat b :: cs)
    else
      match b, r with
      | b, b2 :: r2 =>
        if 0xc2 ≤ b && b ≤ 0xdf && isCont b2 then
          (utf8Decode r2).map (fun cs => Char.ofNat ((b - 0xc0) * 64 + (b2 - 0x80)) :: cs)
        else
          match b2, r2 with
          | b2, b3 :: r3 =>
            if 0xe0 ≤ b && b ≤ 0xef && isCont b2 && isCont b3 then
              let n := (b - 0xe0) * 4096 + (b2 - 0x80) * 64 + (b3 - 0x80)
              if 0x800 ≤ n && !(0xd800 ≤ n && n ≤ 0xdfff) then
                (utf8Decode r3).map (fun cs => Char.ofNat n :: cs)
              else none
            else
              match b3, r3 with
              | b3, b4 :: r4 =>
                if 0xf0 ≤ b && b ≤ 0xf4 && isCont b2 && isCont b3 && isCont b4 then
                  let n := (b - 0xf0) * 262144 + (b2 - 0x80) * 4096 +
                    (b3 - 0x80) * 64 + (b4 - 0x80)
                  if 0x10000 ≤ n && n ≤ 0x10ffff then
                    (utf8Decode r4).map (fun cs => Char.ofNat n :: cs)
                  else none
                else none
              | _, [] => none
          | _, [] => none
      | _, [] => none

/-- Replace every `%XX` escape (two hex digits required) with byte `XX`. -/
def pctDecode : List Nat → Option (List Nat)
  | [] => some []
  | b :: r =>
    if b == 37 then
      match r with
      | h1 :: h2 :: r2 =>
        match hexVal (Char.ofNat h1), hexVal (Char.ofNat h2) with
        | some v1, some v2 => (pctDecode r2).map (fun bs => (16 * v1 + v2) :: bs)
        | _, _ => none
      | _ => none
    else (pctDecode r).map (fun bs => b :: bs)

/-- JavaScript `decodeURIComponent`; `none` models a thrown `URIError`. -/
def decodeURIComponent (s : String) : Option String :=
  (pctDecode (utf8Encode s.data)).bind fun bs =>
    (utf8Decode bs).map fun cs => ⟨cs⟩

/-! ## The Event record and the GET route handler -/

/-- The persisted fields of the `Event` interface
(src/database/booking.model.ts); `createdAt`/`updatedAt` timestamps are
managed by the store and carry no logic. -/
structure EventDoc where
  title : String
  slug : String
  description : String
  overview : String
  image : String
  venue : String
  location : String
  date : String
  time : String
  mode : String
  audience : String
  agenda : List String
  organizer : String
  tags : List String
deriving DecidableEq

/-- The JSON responses the route handler can produce, with their HTTP
status codes baked into the constructors. -/
inductive GetResponse where
  | badRequest (message : String)
  | notFound (message : String)
  | okEvent (event : EventDoc)
  | serverError (message errorText : String)
deriving DecidableEq

/-- HTTP status of a `GetResponse`. -/
def statusOf : GetResponse → Nat
  | .badRequest _ => 400
  | .notFound _ => 404
  | .okEvent _ => 200
  | .serverError _ _ => 500

/-- `GET` of src/app/api/events/[slug]/route.ts.  The store is modelled
as `Except String (List EventDoc)`: `.error e` models a database layer
(`connectToDatabase` or `findOne`) that throws with message `e`, and a
thrown `URIError` from `decodeURIComponent` likewise lands in the
route's `catch` block, producing the 500 response. -/
def getEventBySlug (db : Except String (List EventDoc)) (rawSlug : String) : GetResponse :=
  if rawSlug == "" then
    .badRequest "Missing required route parameter: slug"
  else
    match decodeURIComponent rawSlug with
    | none => .serverError "Unexpected error while fetching event" "URI malformed"
    | some dec =>
      let slug := jsToLower (jsTrim dec)
      if !isValidSlug slug then
        .badRequest "Invalid slug format"
      else
        match db with
        | .error e => .serverError "Unexpected error while fetching event" e
        | .ok events =>
          match events.find? (fun ev => ev.slug == slug) with
          | none => .notFound ("Event not found for slug: " ++ slug)
          | some ev => .okEvent ev

/-! ## `normalizeISODate` (src/database/booking.model.ts)

The general date parser `new Date(raw)` is implementation-defined in
JavaScript, so it enters the model as a parameter
`parse : String → Option Int` giving the epoch-millisecond time value
(`none` models `NaN`).  `toISOString().slice(0, 10)` is modelled
concretely below. -/

/-- The shape test `^\d{4}-\d{2}-\d{2}$`. -/
def isoShapeList : List Char → Bool
  | [y1, y2, y3, y4, c1, m1, m2, c2, d1, d2] =>
    isDigitChar y1 && isDigitChar y2 && isDigitChar y3 && isDigitChar y4 &&
    c1 == '-' && isDigitChar m1 && isDigitChar m2 &&
    c2 == '-' && isDigitChar d1 && isDigitChar d2
  | _ => false

/-- The shape test `^\d{4}-\d{2}-\d{2}$` on strings. -/
def isoShape (s : String) : Bool :=
  isoShapeList s.data

/-- Proleptic-Gregorian civil date (year, month, day) of a day count
relative to 1970-01-01, as computed by `Date.prototype.toISOString`. -/
def civilFromDays (days : Int) : Int × Int × Int :=
  let z := days + 719468
  let era := z / 146097
  let doe := z - era * 146097
  let yoe := (doe - doe / 1460 + doe / 36524 - doe / 146096) / 365
  let y := yoe + era * 400
  let doy := doe - (365 * yoe + yoe / 4 - yoe / 100)
  let mp := (5 * doy + 2) / 153
  let d := doy - (153 * mp + 2) / 5 + 1
  let m := mp + (if mp < 10 then 3 else -9)
  (y + (if m ≤ 2 then 1 else 0), m, d)

/-- The date part of `Date.prototype.toISOString` followed by
`.slice(0, 10)`, applied to an epoch-millisecond time value.  Years
outside 0–9999 use the expanded `±YYYYYY` form, of which `slice(0, 10)`
keeps the first ten characters. -/
def toISODateSlice (t : Int) : String :=
  let (y, m, d) := civilFromDays (t / 86400000)
  let yearStr :=
    if 0 ≤ y && y ≤ 9999 then padZeros 4 (natToString y.toNat)
    else (if y < 0 then "-" else "+") ++ padZeros 6 (natToString y.natAbs)
  ⟨(yearStr ++ "-" ++ padZeros 2 (natToString m.toNat) ++ "-" ++
    padZeros 2 (natToString d.toNat)).data.take 10⟩

/-- `normalizeISODate` of src/database/booking.model.ts, over a given
model `parse` of the JavaScript `Date` constructor on strings. -/
def normalizeISODate (parse : String → Option Int) (input : String) :
    Except String String :=
  let raw := jsTrim input
  if isoShape raw then .ok raw
  else
    match parse raw with
    | none => .error "Invalid date. Provide a valid date string."
    | some t => .ok (toISODateSlice t)

/-! ## `normalizeTimePart` and `normalizeTime` (src/database/booking.model.ts) -/

/-- Full match of `^([01]?\d|2[0-3]):([0-5]\d)$`, returning the two
capture groups (hour text, minute text). -/
def match24 : List Char → Option (String × String)
  | [h1, c, m1, m2] =>
    if isDigitChar h1 && c == ':' && '0' ≤ m1 && m1 ≤ '5' && isDigitChar m2 then
      some (⟨[h1]⟩, ⟨[m1, m2]⟩)
    else none
  | [h1, h2, c, m1, m2] =>
    if ((h1 == '0' || h1 == '1') && isDigitChar h2 || h1 == '2' && '0' ≤ h2 && h2 ≤ '3') &&
        c == ':' && '0' ≤ m1 && m1 ≤ '5' && isDigitChar m2 then
      some (⟨[h1, h2]⟩, ⟨[m1, m2]⟩)
    else none
  | _ => none

/-- The trailing `\s*(AM|PM)$` of the 12-hour pattern (case-insensitive
meridiem); `some true` for PM, `some false` for AM. -/
def parseMeridiem (rest : List Char) : Option Bool :=
  match rest.dropWhile isJsWs with
  | [a, m] =>
    if (a == 'A' || a == 'a') && (m == 'M' || m == 'm') then some false
    else if (a == 'P' || a == 'p') && (m == 'M' || m == 'm') then some true
    else none
  | _ => none

/-- Full match of `^([1-9]|1[0-2]):([0-5]\d)\s*(AM|PM)$` (the meridiem
case-insensitive), returning the hour value, the minute text, and
whether the meridiem is PM.  The second character decides between the
one-digit and two-digit hour alternatives. -/
def match12 : List Char → Option (Nat × String × Bool)
  | c1 :: c2 :: rest2 =>
    if c2 == ':' then
      match rest2 with
      | m1 :: m2 :: rest =>
        if '1' ≤ c1 && c1 ≤ '9' && '0' ≤ m1 && m1 ≤ '5' && isDigitChar m2 then
          match parseMeridiem rest with
          | some pm => some (c1.toNat - 48, ⟨[m1, m2]⟩, pm)
          | none => none
        else none
      | _ => none
    else
      match rest2 with
      | c3 :: m1 :: m2 :: rest =>
        if c1 == '1' && c3 == ':' && '0' ≤ c2 && c2 ≤ '2' &&
            '0' ≤ m1 && m1 ≤ '5' && isDigitChar m2 then
          match parseMeridiem rest with
          | some pm => some (10 + (c2.toNat - 48), ⟨[m1, m2]⟩, pm)
          | none => none
        else none
      | _ => none
  | _ => none

/-- The 12-hour to 24-hour hour conversion of `normalizeTimePart`. -/
def to24Hour (hours : Nat) (isPM : Bool) : Nat :=
  if isPM then (if hours != 12 then hours + 12 else hours)
  else (if hours == 12 then 0 else hours)

/-- `normalizeTimePart` of src/database/booking.model.ts. -/
def normalizeTimePart (part : String) : Except String String :=
  let raw := jsTrim part
  match match24 raw.data with
  | some (hh, mm) => .ok (padZeros 2 hh ++ ":" ++ mm)
  | none =>
    match match12 raw.data with
    | some (hours, minutes, isPM) =>
      .ok (padZeros 2 (natToString (to24Hour hours isPM)) ++ ":" ++ minutes)
    | none =>
      .error "Invalid time. Use HH:mm, h:mm AM/PM, or a range like '09:00-17:00'."

/-- A range dash: `-`, en dash, or em dash. -/
def isRangeDash (c : Char) : Bool :=
  c == '-' || c.toNat == 0x2013 || c.toNat == 0x2014

/-- JavaScript `split(re)` for the separator `\s*(dash)\s*`: a scanner
with leftmost-match semantics.  `afterDash` records that the previous
characters belong to a separator whose trailing whitespace is still
being consumed; `buf` holds whitespace that becomes part of a separator
if a dash follows, and part of the current piece otherwise. -/
def splitScan (afterDash : Bool) (acc buf : List Char) : List Char → List (List Char)
  | [] => [acc ++ buf]
  | c :: r =>
    if isJsWs c then
      if afterDash then splitScan true [] [] r
      else splitScan false acc (buf ++ [c]) r
    else if isRangeDash c then
      acc :: splitScan true [] [] r
    else
      splitScan false (acc ++ buf ++ [c]) [] r

/-- The token list of `normalizeTime`:
`raw.split(separator).map(p => p.trim()).filter(Boolean)`. -/
def timeParts (s : String) : List String :=
  (((splitScan false [] [] (jsTrim s).data).map
    (fun l => jsTrim ⟨l⟩)).filter (fun p => p != ""))

/-- `normalizeTime` of src/database/booking.model.ts. -/
def normalizeTime (input : String) : Except String String :=
  match timeParts input with
  | [p] => normalizeTimePart p
  | [p, q] => do
    let a ← normalizeTimePart p
    let b ← normalizeTimePart q
    pure (a ++ "-" ++ b)
  | _ =>
    .error "Invalid time. Use HH:mm, h:mm AM/PM, or a single '-' separated range."

/-! ## The Event `pre("save")` hook (src/database/booking.model.ts) -/

/-- Whether a slug `s` matches the uniqueness query pattern
`^base(?:-\d+)?$`: either exactly `base`, or `base` followed by a dash
and at least one decimal digit.  (`base` comes from `slugify`, so it
contains no regex metacharacters.) -/
def matchBaseNum (base s : String) : Bool :=
  s == base ||
  (s.data.take (base.data.length + 1) == base.data ++ ['-'] &&
    (s.data.drop (base.data.length + 1) != []) &&
    (s.data.drop (base.data.length + 1)).all isDigitChar)

/-- The candidate tried by the uniqueness loop before iteration `i`:
the base itself before the first iteration, `base-i` afterwards. -/
def candAt (base : String) : Nat → String
  | 0 => base
  | i + 1 => base ++ "-" ++ natToString (i + 1)

/-- The `while (taken.has(candidate))` loop of the event save hook:
starting from `candidate` with counter `i`, keep trying `base-i`
while the candidate is taken.  Fuel-driven; `pickCandidate` supplies
fuel that is provably sufficient. -/
def pickLoop (base : String) (taken : List String) : String → Nat → Nat → String
  | candidate, _, 0 => candidate
  | candidate, i, fuel + 1 =>
    if candidate ∈ taken then pickLoop base taken (base ++ "-" ++ natToString i) (i + 1) fuel
    else candidate

/-- Slug uniqueness resolution of the event save hook: `candidate`
starts as `base`; when the query returned any match, numeric suffixes
are appended until the candidate is unused. -/
def pickCandidate (base : String) (existing : List String) : String :=
  if existing.isEmpty then base
  else pickLoop base existing base 1 (existing.length + 1)

/-- `EventSchema.pre("save")` of src/database/booking.model.ts.
`modTitle`/`modDate`/`modTime` model `this.isModified(...)`;
`otherSlugs` models the slugs of all events other than the one being
saved (the query excludes `this._id`); `parse` models the JavaScript
`Date` constructor used by `normalizeISODate`.  An `.error` result
models a thrown validation error aborting the save. -/
def eventPreSave (parse : String → Option Int)
    (modTitle modDate modTime : Bool) (otherSlugs : List String)
    (e : EventDoc) : Except String EventDoc := do
  let e1 ←
    if modTitle then do
      let base := slugify e.title
      if base == "" then
        Except.error "Unable to generate slug from title"
      else
        let existing := otherSlugs.filter (fun s => matchBaseNum base s)
        Except.ok { e with slug := pickCandidate base existing }
    else Except.ok e
  let e2 ←
    if modDate then do
      let d ← normalizeISODate parse e1.date
      Except.ok { e1 with date := d }
    else Except.ok e1
  if modTime then do
    let t ← normalizeTime e2.time
    Except.ok { e2 with time := t }
  else Except.ok e2

/-! ## The Booking model and its `pre("save")` hook -/

/-- The persisted fields of the `Booking` interface; event identifiers
are modelled as naturals. -/
structure BookingDoc where
  eventId : Nat
  email : String
deriving DecidableEq

/-- `BookingSchema.pre("save")` of src/database/booking.model.ts:
when `eventId` was newly set, `Event.exists({ _id: this.eventId })`
must succeed, otherwise the hook throws. -/
def bookingPreSave (modifiedEventId : Bool) (eventIdExists : Bool) :
    Except String Unit :=
  if modifiedEventId then
    if eventIdExists then Except.ok ()
    else Except.error "Referenced event does not exist"
  else Except.ok ()

/-- A booking save against a store: `eventIds` is the set of existing
Event identifiers, `db` the persisted bookings.  The document is
appended only when the pre-save hook passes; a hook error aborts the
save and leaves the store untouched. -/
def saveBooking (eventIds : List Nat) (modifiedEventId : Bool)
    (b : BookingDoc) (db : List BookingDoc) : Except String (List BookingDoc) :=
  match bookingPreSave modifiedEventId (eventIds.contains b.eventId) with
  | .error e => .error e
  | .ok () => .ok (db ++ [b])

/-- A concrete event record used to exercise the theorems below on
concrete inputs. -/
def sampleEvent : EventDoc :=
  ⟨"My Talk", "my-talk", "d", "o", "img", "v", "loc", "2024-01-05", "09:00",
    "online", "devs", ["intro"], "org", ["dev"]⟩

/-! # Theorems -/

theorem slugify_of_jsTrim_empty (s : String) (h : jsTrim s = "") : slugify s = "" := by
  unfold slugify
  rw [h]
  rfl

theorem eventPreSave_error_of_base_empty (parse : String → Option Int)
    (md mt : Bool) (otherSlugs : List String) (e : EventDoc)
    (h : slugify e.title = "") :
    eventPreSave parse true md mt otherSlugs e =
      .error "Unable to generate slug from title" := by
  unfold eventPreSave
  rw [h]
  rfl

/-- C9: deriving a slug from an empty or whitespace-only title — and more
generally from any title whose slugified base is empty — fails with the
validation error `"Unable to generate slug from title"`, aborting the
event save. -/
theorem event_save_aborts_on_empty_base (parse : String → Option Int)
    (md mt : Bool) (otherSlugs : List String) (e : EventDoc) :
    (jsTrim e.title = "" →
      eventPreSave parse true md mt otherSlugs e =
        .error "Unable to generate slug from title") ∧
    (slugify e.title = "" →
      eventPreSave parse true md mt otherSlugs e =
        .error "Unable to generate slug from title") := by
  constructor
  · intro h
    exact eventPreSave_error_of_base_empty parse md mt otherSlugs e
      (slugify_of_jsTrim_empty e.title h)
  · exact eventPreSave_error_of_base_empty parse md mt otherSlugs e

/-- Witness for C9 at the whitespace-only title `"   "`. -/
theorem event_save_aborts_on_empty_base_witness :
    eventPreSave (fun _ => none) true false false ["my-talk"]
      { sampleEvent with title := "   " } =
      .error "Unable to generate slug from title" :=
  (event_save_aborts_on_empty_base (fun _ => none) false false ["my-talk"]
    { sampleEvent with title := "   " }).1 (by decide)

/-- C5: a booking save with a newly set `eventId` that references no
existing event fails with the referential-integrity error and persists
nothing; the check passes when the event exists, and is skipped entirely
when `eventId` was not newly set. -/
theorem booking_referential_integrity (eventIds : List Nat)
    (b : BookingDoc) (db : List BookingDoc) :
    (b.eventId ∉ eventIds →
      saveBooking eventIds true b db = .error "Referenced event does not exist") ∧
    (b.eventId ∈ eventIds → saveBooking eventIds true b db = .ok (db ++ [b])) ∧
    (saveBooking eventIds false b db = .ok (db ++ [b])) := by
  refine ⟨fun h => ?_, fun h => ?_, rfl⟩
  · simp [saveBooking, bookingPreSave, h]
  · simp [saveBooking, bookingPreSave, h]

/-- Witness for C5: booking event id 7 against a store holding only
event 3 fails referentially; the same save succeeds when 7 exists. -/
theorem booking_referential_integrity_witness :
    saveBooking [3] true ⟨7, "a@b.co"⟩ [] = .error "Referenced event does not exist" ∧
    saveBooking [3, 7] true ⟨7, "a@b.co"⟩ [] = .ok [⟨7, "a@b.co"⟩] :=
  ⟨(booking_referential_integrity [3] ⟨7, "a@b.co"⟩ []).1 (by decide),
   (booking_referential_integrity [3, 7] ⟨7, "a@b.co"⟩ []).2.1 (by decide)⟩

theorem match24_some_length (l : List Char) (x : String × String)
    (h : match24 l = some x) : l.length = 4 ∨ l.length = 5 := by
  unfold match24 at h
  split at h
  · exact Or.inl rfl
  · exact Or.inr rfl
  · exact absurd h (by simp)

theorem parseMeridiem_some_length (rest : List Char) (pm : Bool)
    (h : parseMeridiem rest = some pm) : 2 ≤ rest.length := by
  unfold parseMeridiem at h
  split at h
  · rename_i heq
    have hle := (List.dropWhile_sublist (p := isJsWs) (l := rest)).length_le
    rw [heq] at hle
    simpa using hle
  · exact absurd h (by simp)

theorem match12_some_length (l : List Char) (x : Nat × String × Bool)
    (h : match12 l = some x) : 6 ≤ l.length := by
  rcases l with _ | ⟨c1, _ | ⟨c2, rest2⟩⟩
  · simp [match12] at h
  · simp [match12] at h
  · simp only [match12] at h
    by_cases hc : (c2 == ':') = true
    · rw [if_pos hc] at h
      rcases rest2 with _ | ⟨m1, _ | ⟨m2, rest⟩⟩
      · simp at h
      · simp at h
      · cases hpm : parseMeridiem rest with
        | none => simp [hpm] at h
        | some pm =>
          have := parseMeridiem_some_length rest pm hpm
          simp
          omega
    · rw [if_neg hc] at h
      rcases rest2 with _ | ⟨c3, _ | ⟨m1, _ | ⟨m2, rest⟩⟩⟩
      · simp at h
      · simp at h
      · simp at h
      · cases hpm : parseMeridiem rest with
        | none => simp [hpm] at h
        | some pm =>
          have := parseMeridiem_some_length rest pm hpm
          simp
          omega

theorem match24_none_of_match12 (l : List Char) (x : Nat × String × Bool)
    (h12 : match12 l = some x) : match24 l = none := by
  have h6 := match12_some_length l x h12
  cases h24 : match24 l with
  | none => rfl
  | some y =>
    have := match24_some_length l y h24
    omega

theorem normalizeTimePart_12h (part : String) (hr : Nat) (mm : String) (pm : Bool)
    (hm : match12 (jsTrim part).data = some (hr, mm, pm)) :
    normalizeTimePart part =
      .ok (padZeros 2 (natToString (to24Hour hr pm)) ++ ":" ++ mm) := by
  have h24 := match24_none_of_match12 _ _ hm
  simp [normalizeTimePart, h24, hm]

/-- C3: `normalizeTime` converts accepted tokens to zero-padded 24-hour
`HH:mm` (joining a two-token range with a dash) using the 12-hour rules
`12:mm AM → 00:mm`, `h:mm AM → h:mm` (h < 12), `12:mm PM → 12:mm`,
`h:mm PM → (h+12):mm` (h < 12); concretely on the spec's examples, with
`"25:00"` failing. -/
theorem normalizeTime_conversions :
    (normalizeTime "9:00 AM" = .ok "09:00") ∧
    (normalizeTime "12:00 AM" = .ok "00:00") ∧
    (normalizeTime "12:00 PM" = .ok "12:00") ∧
    (normalizeTime "9:00 AM - 6:00 PM" = .ok "09:00-18:00") ∧
    (normalizeTime "25:00" =
      .error "Invalid time. Use HH:mm, h:mm AM/PM, or a range like '09:00-17:00'.") ∧
    (∀ part hr mm pm, match12 (jsTrim part).data = some (hr, mm, pm) →
      normalizeTimePart part =
        .ok (padZeros 2 (natToString (to24Hour hr pm)) ++ ":" ++ mm)) ∧
    (∀ hr, hr < 12 → to24Hour hr false = hr ∧ to24Hour hr true = hr + 12) ∧
    (to24Hour 12 false = 0 ∧ to24Hour 12 true = 12) := by
  refine ⟨rfl, rfl, rfl, rfl, rfl,
    normalizeTimePart_12h, fun hr h => ⟨?_, ?_⟩, by decide, by decide⟩
  · have hne : (hr == 12) = false := by
      simp
      omega
    simp [to24Hour, hne]
  · have hne : (hr != 12) = true := by
      simp
      omega
    simp [to24Hour, hne]

/-- Witness for C3's general 12-hour rule at the lowercase token
`"1:30 pm"`. -/
theorem normalizeTime_conversions_witness :
    normalizeTimePart "1:30 pm" = .ok "13:30" :=
  normalizeTime_conversions.2.2.2.2.2.1 "1:30 pm" 1 "30" true (by decide)

/-- C8: `normalizeTime` accepts only a single token or exactly two
tokens as produced by splitting on a dash, en dash, or em dash with
optional surrounding whitespace: any other token count yields the
validation error naming the accepted formats, a failing token makes the
whole normalization fail with a validation error, and every success
comes from one or two individually accepted tokens. -/
theorem normalizeTime_token_structure (input : String) :
    ((timeParts input).length ≠ 1 → (timeParts input).length ≠ 2 →
      normalizeTime input =
        .error "Invalid time. Use HH:mm, h:mm AM/PM, or a single '-' separated range.") ∧
    (∀ p, p ∈ timeParts input → (∃ e0, normalizeTimePart p = .error e0) →
      ∃ e, normalizeTime input = .error e) ∧
    (∀ r, normalizeTime input = .ok r →
      (∃ p, timeParts input = [p] ∧ normalizeTimePart p = .ok r) ∨
      (∃ p q a b, timeParts input = [p, q] ∧ normalizeTimePart p = .ok a ∧
        normalizeTimePart q = .ok b ∧ r = a ++ "-" ++ b)) := by
  rcases hp : timeParts input with _ | ⟨p, _ | ⟨q, _ | ⟨r3, t⟩⟩⟩
  · refine ⟨fun _ _ => by simp [normalizeTime, hp], ?_, ?_⟩
    · intro p hmem
      simp at hmem
    · intro r hok
      simp [normalizeTime, hp] at hok
  · refine ⟨fun h1 _ => absurd rfl h1, ?_, ?_⟩
    · intro p' hmem ⟨e0, he⟩
      simp at hmem
      subst hmem
      exact ⟨e0, by simp [normalizeTime, hp, he]⟩
    · intro r hok
      rw [normalizeTime, hp] at hok
      exact Or.inl ⟨p, rfl, hok⟩
  · refine ⟨fun _ h2 => absurd rfl h2, ?_, ?_⟩
    · intro p' hmem ⟨e0, he⟩
      cases hpa : normalizeTimePart p with
      | error ea =>
        exact ⟨ea, by simp [normalizeTime, hp, hpa, Bind.bind, Except.bind]⟩
      | ok a =>
        simp at hmem
        rcases hmem with rfl | rfl
        · rw [hpa] at he
          exact absurd he (by simp)
        · exact ⟨e0, by simp [normalizeTime, hp, hpa, he, Bind.bind, Except.bind]⟩
    · intro r hok
      rw [normalizeTime, hp] at hok
      cases hpa : normalizeTimePart p with
      | error ea => simp [hpa, Bind.bind, Except.bind] at hok
      | ok a =>
        cases hqb : normalizeTimePart q with
        | error eb => simp [hpa, hqb, Bind.bind, Except.bind] at hok
        | ok b =>
          simp [hpa, hqb, Bind.bind, Except.bind, Pure.pure, Except.pure] at hok
          exact Or.inr ⟨p, q, a, b, rfl, hpa, hqb, hok.symm⟩
  · refine ⟨fun _ _ => by simp [normalizeTime, hp], ?_, ?_⟩
    · intro p' hmem hbad
      refine ⟨"Invalid time. Use HH:mm, h:mm AM/PM, or a single '-' separated range.", ?_⟩
      simp [normalizeTime, hp]
    · intro r hok
      simp [normalizeTime, hp] at hok

/-- Witness for C8 at the three-token input `"1:00-2:00-3:00"`. -/
theorem normalizeTime_token_structure_witness :
    normalizeTime "1:00-2:00-3:00" =
      .error "Invalid time. Use HH:mm, h:mm AM/PM, or a single '-' separated range." :=
  (normalizeTime_token_structure "1:00-2:00-3:00").1 (by decide) (by decide)

theorem valid_slug_rawSlug_ne_empty (rawSlug dec : String)
    (hdec : decodeURIComponent rawSlug = some dec)
    (hv : isValidSlug (jsToLower (jsTrim dec)) = true) : rawSlug ≠ "" := by
  intro hemp
  subst hemp
  have h0 : decodeURIComponent "" = some "" := rfl
  rw [h0] at hdec
  have hd : dec = "" := by
    injection hdec with h
    exact h.symm
  subst hd
  have : isValidSlug (jsToLower (jsTrim "")) = false := by decide
  rw [this] at hv
  exact absurd hv (by simp)

/-- C2: the GET event-by-slug handler decodes, trims and lowercases the
path segment, answers 400 with a message when the result fails the slug
pattern, 404 naming the slug when no event carries it, 200 with the full
event record when one does, and 500 with `{ message, error }` when the
store layer fails. -/
theorem getEventBySlug_cases (db : Except String (List EventDoc)) (rawSlug dec : String)
    (hdec : decodeURIComponent rawSlug = some dec) :
    (isValidSlug (jsToLower (jsTrim dec)) = false →
      getEventBySlug db rawSlug = .badRequest "Missing required route parameter: slug" ∨
      getEventBySlug db rawSlug = .badRequest "Invalid slug format") ∧
    (∀ events, db = Except.ok events → isValidSlug (jsToLower (jsTrim dec)) = true →
      (events.find? (fun ev => ev.slug == jsToLower (jsTrim dec)) = none →
        getEventBySlug db rawSlug =
          .notFound ("Event not found for slug: " ++ jsToLower (jsTrim dec))) ∧
      (∀ ev, events.find? (fun ev2 => ev2.slug == jsToLower (jsTrim dec)) = some ev →
        getEventBySlug db rawSlug = .okEvent ev)) ∧
    (∀ emsg, db = Except.error emsg → isValidSlug (jsToLower (jsTrim dec)) = true →
      getEventBySlug db rawSlug =
        .serverError "Unexpected error while fetching event" emsg) := by
  refine ⟨fun hbad => ?_, fun events hdb hv => ⟨fun hfind => ?_, fun ev hfind => ?_⟩,
    fun emsg hdb hv => ?_⟩
  · by_cases hemp : rawSlug = ""
    · subst hemp
      exact Or.inl rfl
    · exact Or.inr (by simp [getEventBySlug, hemp, hdec, hbad])
  · have hraw := valid_slug_rawSlug_ne_empty rawSlug dec hdec hv
    subst hdb
    simp [getEventBySlug, hraw, hdec, hv, hfind]
  · have hraw := valid_slug_rawSlug_ne_empty rawSlug dec hdec hv
    subst hdb
    simp [getEventBySlug, hraw, hdec, hv, hfind]
  · have hraw := valid_slug_rawSlug_ne_empty rawSlug dec hdec hv
    subst hdb
    simp [getEventBySlug, hraw, hdec, hv]

/-- Witness for C2: a stored slug is served with its full record. -/
theorem getEventBySlug_cases_witness :
    getEventBySlug (Except.ok [sampleEvent]) "my-talk" = .okEvent sampleEvent :=
  ((getEventBySlug_cases (Except.ok [sampleEvent]) "my-talk" "my-talk"
    (by decide)).2.1 [sampleEvent] rfl (by decide)).2 sampleEvent (by decide)

/-- C7 counterexample: the requested slug `"My-Talk"` contains uppercase
characters, yet the handler does not answer 400 — it lowercases first,
queries the store, and returns 404 or 200 depending on the store's
contents. -/
theorem uppercase_slug_not_rejected :
    getEventBySlug (Except.ok [sampleEvent]) "My-Talk" = .okEvent sampleEvent ∧
    statusOf (getEventBySlug (Except.ok [sampleEvent]) "My-Talk") ≠ 400 ∧
    getEventBySlug (Except.ok []) "My-Talk" =
      .notFound "Event not found for slug: my-talk" :=
  ⟨by decide, by decide, by decide⟩

/-- C7 (amended): a requested slug that still fails the pattern after
percent-decoding, trimming and lowercasing (e.g. `"My Talk!"`) receives
a 400 response, and the response is independent of the store. -/
theorem route_rejects_unnormalizable_slug (db db' : Except String (List EventDoc))
    (rawSlug dec : String) (hdec : decodeURIComponent rawSlug = some dec)
    (hbad : isValidSlug (jsToLower (jsTrim dec)) = false) :
    statusOf (getEventBySlug db rawSlug) = 400 ∧
    getEventBySlug db rawSlug = getEventBySlug db' rawSlug := by
  by_cases hemp : rawSlug = ""
  · subst hemp
    exact ⟨rfl, rfl⟩
  · constructor
    · simp [getEventBySlug, hemp, hdec, hbad, statusOf]
    · simp [getEventBySlug, hemp, hdec, hbad]

/-- Witness for the amended C7 at the raw slug `"My Talk!"`. -/
theorem route_rejects_unnormalizable_slug_witness :
    statusOf (getEventBySlug (Except.ok []) "My Talk!") = 400 ∧
    getEventBySlug (Except.ok []) "My Talk!" =
      getEventBySlug (Except.error "boom") "My Talk!" :=
  route_rejects_unnormalizable_slug (Except.ok []) (Except.error "boom")
    "My Talk!" "My Talk!" (by decide) (by decide)

theorem natDigitsAux_fuel (f g n : Nat) (hf : n < f) (hg : n < g) :
    natDigitsAux f n = natDigitsAux g n := by
  induction f generalizing g n with
  | zero => omega
  | succ f ih =>
    cases g with
    | zero => omega
    | succ g =>
      simp only [natDigitsAux]
      by_cases h10 : n < 10
      · simp [h10]
      · simp only [h10, if_false]
        rw [ih g (n / 10) (by omega) (by omega)]

theorem natDigitsAux_unfold (n : Nat) :
    natDigitsAux (n + 1) n =
      if n < 10 then [digitChar n]
      else natDigitsAux (n / 10 + 1) (n / 10) ++ [digitChar (n % 10)] := by
  by_cases h10 : n < 10
  · simp [natDigitsAux, h10]
  · rw [if_neg h10]
    conv_lhs => rw [natDigitsAux]
    rw [if_neg h10, natDigitsAux_fuel n (n / 10 + 1) (n / 10) (by omega) (by omega)]

theorem isDigitChar_digitChar (k : Nat) (hk : k < 10) :
    isDigitChar (digitChar k) = true := by
  interval_cases k <;> decide

theorem natDigitsAux_all_digit (f n : Nat) (hf : n < f) :
    (natDigitsAux f n).all isDigitChar = true := by
  induction f generalizing n with
  | zero => omega
  | succ f ih =>
    simp only [natDigitsAux]
    by_cases h10 : n < 10
    · simp [h10, isDigitChar_digitChar n h10]
    · simp only [h10, if_false, List.all_append]
      simp [ih (n / 10) (by omega), isDigitChar_digitChar (n % 10) (by omega)]

theorem natDigitsAux_ne_nil (f n : Nat) (hf : n < f) :
    natDigitsAux f n ≠ [] := by
  cases f with
  | zero => omega
  | succ f =>
    simp only [natDigitsAux]
    by_cases h10 : n < 10 <;> simp [h10]

theorem natDigitsAux_length_le (k : Nat) : ∀ n, n < 10 ^ k → 1 ≤ k →
    (natDigitsAux (n + 1) n).length ≤ k := by
  induction k with
  | zero => omega
  | succ k ih =>
    intro n hlt _
    rw [natDigitsAux_unfold]
    by_cases h10 : n < 10
    · rw [if_pos h10]
      simp
    · rw [if_neg h10]
      rw [List.length_append, List.length_cons, List.length_nil]
      have hpow : 10 ^ (k + 1) = 10 * 10 ^ k := by ring
      have hk1 : 1 ≤ k := by
        by_contra hk0
        have hz : k = 0 := by omega
        subst hz
        simp at hlt
        omega
      have := ih (n / 10) (by omega) hk1
      omega

theorem padZeros_length (k : Nat) (s : String) (h : s.length ≤ k) :
    (padZeros k s).length = k := by
  have hd : (padZeros k s).length =
      (List.replicate (k - s.length) '0' ++ s.data).length := rfl
  have hs : s.data.length = s.length := rfl
  rw [hd, List.length_append, List.length_replicate, hs]
  omega

theorem padZeros_all_digit (k : Nat) (s : String)
    (h : s.data.all isDigitChar = true) :
    (padZeros k s).data.all isDigitChar = true := by
  have hd : (padZeros k s).data = List.replicate (k - s.length) '0' ++ s.data := rfl
  have hrep : (List.replicate (k - s.length) '0').all isDigitChar = true := by
    rw [List.all_eq_true]
    intro c hc
    rw [List.eq_of_mem_replicate hc]
    decide
  rw [hd, List.all_append, hrep, h]
  rfl

set_option maxHeartbeats 4000000 in
theorem era_doy_bounds (a b : Int) (h0 : 0 ≤ a) (h1 : a ≤ 146096)
    (hy : b = (a - a / 1460 + a / 36524 - a / 146096) / 365) :
    0 ≤ a - (365 * b + b / 4 - b / 100) ∧
    a - (365 * b + b / 4 - b / 100) ≤ 365 := by
  have hlo : 0 ≤ b := by omega
  have hhi : b ≤ 399 := by omega
  interval_cases b <;> omega

theorem civilFromDays_month_day_bounds (days : Int) :
    1 ≤ (civilFromDays days).2.1 ∧ (civilFromDays days).2.1 ≤ 12 ∧
    1 ≤ (civilFromDays days).2.2 ∧ (civilFromDays days).2.2 ≤ 31 := by
  have h0 : 0 ≤ (days + 719468) - (days + 719468) / 146097 * 146097 := by omega
  have h1 : (days + 719468) - (days + 719468) / 146097 * 146097 ≤ 146096 := by omega
  have hdoy := era_doy_bounds
    ((days + 719468) - (days + 719468) / 146097 * 146097) _ h0 h1 rfl
  simp only [civilFromDays]
  refine ⟨?_, ?_, ?_, ?_⟩ <;> first
    | (split <;> omega)
    | omega

theorem isoShapeList_build (l1 l2 l3 : List Char)
    (h1 : l1.length = 4) (h2 : l2.length = 2) (h3 : l3.length = 2)
    (d1 : l1.all isDigitChar = true) (d2 : l2.all isDigitChar = true)
    (d3 : l3.all isDigitChar = true) :
    isoShapeList (l1 ++ '-' :: (l2 ++ '-' :: l3)) = true := by
  rcases l1 with _ | ⟨a1, _ | ⟨a2, _ | ⟨a3, _ | ⟨a4, _ | ⟨a5, t1⟩⟩⟩⟩⟩ <;> simp at h1
  rcases l2 with _ | ⟨b1, _ | ⟨b2, _ | ⟨b3, t2⟩⟩⟩ <;> simp at h2
  rcases l3 with _ | ⟨c1, _ | ⟨c2, _ | ⟨c3, t3⟩⟩⟩ <;> simp at h3
  simp at d1 d2 d3
  simp [isoShapeList, d1.1, d1.2.1, d1.2.2.1, d1.2.2.2, d2.1, d2.2, d3.1, d3.2]

theorem natToString_length_le (k n : Nat) (hlt : n < 10 ^ k) (hk : 1 ≤ k) :
    (natToString n).length ≤ k :=
  natDigitsAux_length_le k n hlt hk

theorem natToString_all_digit (n : Nat) :
    (natToString n).data.all isDigitChar = true :=
  natDigitsAux_all_digit (n + 1) n (by omega)

/-- The year 0–9999 branch of `toISODateSlice`, written out. -/
theorem toISODateSlice_shape (t : Int)
    (hy0 : 0 ≤ (civilFromDays (t / 86400000)).1)
    (hy1 : (civilFromDays (t / 86400000)).1 ≤ 9999) :
    isoShape (toISODateSlice t) = true := by
  obtain ⟨md1, md2, md3, md4⟩ := civilFromDays_month_day_bounds (t / 86400000)
  rcases hcd : civilFromDays (t / 86400000) with ⟨y, m, d⟩
  rw [hcd] at hy0 hy1 md1 md2 md3 md4
  simp only [] at hy0 hy1 md1 md2 md3 md4
  have hcond : (decide (0 ≤ y) && decide (y ≤ 9999)) = true := by
    simp [hy0, hy1]
  have hAlen : (padZeros 4 (natToString y.toNat)).data.length = 4 := by
    have := padZeros_length 4 (natToString y.toNat)
      (natToString_length_le 4 y.toNat (by omega) (by omega))
    exact this
  have hBlen : (padZeros 2 (natToString m.toNat)).data.length = 2 := by
    exact padZeros_length 2 (natToString m.toNat)
      (natToString_length_le 2 m.toNat (by omega) (by omega))
  have hClen : (padZeros 2 (natToString d.toNat)).data.length = 2 := by
    exact padZeros_length 2 (natToString d.toNat)
      (natToString_length_le 2 d.toNat (by omega) (by omega))
  have hA : (padZeros 4 (natToString y.toNat)).data.all isDigitChar = true :=
    padZeros_all_digit 4 _ (natToString_all_digit y.toNat)
  have hB : (padZeros 2 (natToString m.toNat)).data.all isDigitChar = true :=
    padZeros_all_digit 2 _ (natToString_all_digit m.toNat)
  have hC : (padZeros 2 (natToString d.toNat)).data.all isDigitChar = true :=
    padZeros_all_digit 2 _ (natToString_all_digit d.toNat)
  unfold toISODateSlice
  rw [hcd]
  simp only [hcond, if_true]
  have hdash : ("-" : String).data = ['-'] := rfl
  show isoShapeList _ = true
  simp only [String.data_append, hdash]
  rw [List.append_assoc, List.append_assoc, List.append_assoc]
  simp only [List.singleton_append]
  have hlen : ((padZeros 4 (natToString y.toNat)).data ++
      '-' :: ((padZeros 2 (natToString m.toNat)).data ++
        '-' :: (padZeros 2 (natToString d.toNat)).data)).length = 10 := by
    simp [hAlen, hBlen, hClen]
  rw [← hlen, List.take_length]
  exact isoShapeList_build _ _ _ hAlen hBlen hClen hA hB hC

/-- C4: `normalizeISODate` passes `YYYY-MM-DD`-shaped input through
unchanged (after trimming), fails with a validation error when the
date parser fails, and otherwise returns the parsed moment's UTC
calendar date — a function of the UTC day alone, discarding
time-of-day — which for years 0–9999 is itself `YYYY-MM-DD`-shaped. -/
theorem normalizeISODate_cases (parse : String → Option Int) (input : String) :
    (isoShape (jsTrim input) = true →
      normalizeISODate parse input = .ok (jsTrim input)) ∧
    (isoShape (jsTrim input) = false → parse (jsTrim input) = none →
      normalizeISODate parse input =
        .error "Invalid date. Provide a valid date string.") ∧
    (∀ t, isoShape (jsTrim input) = false → parse (jsTrim input) = some t →
      normalizeISODate parse input = .ok (toISODateSlice t)) ∧
    (∀ t u : Int, t / 86400000 = u / 86400000 →
      toISODateSlice t = toISODateSlice u) ∧
    (∀ t : Int, 0 ≤ (civilFromDays (t / 86400000)).1 →
      (civilFromDays (t / 86400000)).1 ≤ 9999 →
      isoShape (toISODateSlice t) = true) := by
  refine ⟨fun hshape => ?_, fun hshape hparse => ?_, fun t hshape hparse => ?_,
    fun t u hday => ?_, toISODateSlice_shape⟩
  · simp [normalizeISODate, hshape]
  · simp [normalizeISODate, hshape, hparse]
  · simp [normalizeISODate, hshape, hparse]
  · unfold toISODateSlice
    rw [hday]

/-- Witness for C4: `"2024-1-5"` is not `YYYY-MM-DD`-shaped, parses
(under a parser standing in for the `Date` constructor) to the epoch
milliseconds of 2024-01-05T00:00:00Z, and normalizes to the valid
`YYYY-MM-DD` string `"2024-01-05"`; `"not-a-date"` fails. -/
theorem normalizeISODate_cases_witness :
    normalizeISODate
      (fun s => if s == "2024-1-5" then some 1704412800000 else none)
      "2024-1-5" = .ok "2024-01-05" ∧
    isoShape "2024-01-05" = true ∧
    normalizeISODate (fun _ => none) "not-a-date" =
      .error "Invalid date. Provide a valid date string." :=
  ⟨((normalizeISODate_cases
      (fun s => if s == "2024-1-5" then some 1704412800000 else none)
      "2024-1-5").2.2.1 1704412800000 (by decide) (by decide)).trans
    (congrArg Except.ok (by decide)),
   (congrArg isoShape
      (show toISODateSlice 1704412800000 = "2024-01-05" by decide)).symm.trans
    ((normalizeISODate_cases (fun _ => none) "2024-1-5").2.2.2.2 1704412800000
      (by decide) (by decide)),
   (normalizeISODate_cases (fun _ => none) "not-a-date").2.1 (by decide) rfl⟩

theorem isSlugChar_ne_dash (c : Char) (h : isSlugChar c = true) : c ≠ '-' := by
  intro he
  subst he
  simp [isSlugChar] at h

theorem replaceRuns_chars (l : List Char) : ∀ (inRun : Bool),
    ∀ c ∈ replaceRunsAux inRun l, isSlugChar c = true ∨ c = '-' := by
  induction l with
  | nil =>
    intro inRun c hc
    simp [replaceRunsAux] at hc
  | cons a r ih =>
    intro inRun c hc
    by_cases ha : isSlugChar a = true
    · simp only [replaceRunsAux, ha, if_true] at hc
      rcases List.mem_cons.mp hc with rfl | hmem
      · exact Or.inl ha
      · exact ih false c hmem
    · rw [Bool.not_eq_true] at ha
      simp only [replaceRunsAux, ha, Bool.false_eq_true, if_false] at hc
      cases inRun with
      | true =>
        simp only [if_true] at hc
        exact ih true c hc
      | false =>
        simp only [Bool.false_eq_true, if_false] at hc
        rcases List.mem_cons.mp hc with rfl | hmem
        · exact Or.inr rfl
        · exact ih true c hmem

theorem replaceRuns_true_head (l : List Char) (c : Char)
    (h : (replaceRunsAux true l).head? = some c) : isSlugChar c = true := by
  induction l with
  | nil => simp [replaceRunsAux] at h
  | cons a r ih =>
    by_cases ha : isSlugChar a = true
    · simp only [replaceRunsAux, ha, if_true, List.head?_cons] at h
      injection h with h
      subst h
      exact ha
    · rw [Bool.not_eq_true] at ha
      simp only [replaceRunsAux, ha, Bool.false_eq_true, if_false, if_true] at h
      exact ih h

theorem replaceRuns_chain (l : List Char) : ∀ (inRun : Bool),
    List.Chain' (fun a b => ¬(a = '-' ∧ b = '-')) (replaceRunsAux inRun l) := by
  induction l with
  | nil =>
    intro inRun
    simp [replaceRunsAux]
  | cons a r ih =>
    intro inRun
    by_cases ha : isSlugChar a = true
    · simp only [replaceRunsAux, ha, if_true]
      refine List.chain'_cons'.mpr ⟨?_, ih false⟩
      intro y _ hcon
      exact isSlugChar_ne_dash a ha hcon.1
    · rw [Bool.not_eq_true] at ha
      simp only [replaceRunsAux, ha, Bool.false_eq_true, if_false]
      cases inRun with
      | true =>
        simp only [if_true]
        exact ih true
      | false =>
        simp only [Bool.false_eq_true, if_false]
        refine List.chain'_cons'.mpr ⟨?_, ih true⟩
        intro y hy hcon
        have := replaceRuns_true_head r y hy
        exact isSlugChar_ne_dash y this hcon.2

theorem stripEdge_subset (l : List Char) : stripEdgeDashes l ⊆ l := by
  intro c hc
  unfold stripEdgeDashes at hc
  rw [List.mem_reverse] at hc
  have hc2 := List.dropWhile_subset (fun c => c == '-') hc
  rw [List.mem_reverse] at hc2
  exact List.dropWhile_subset (fun c => c == '-') hc2

theorem stripEdge_chain (l : List Char)
    (h : List.Chain' (fun a b => ¬(a = '-' ∧ b = '-')) l) :
    List.Chain' (fun a b => ¬(a = '-' ∧ b = '-')) (stripEdgeDashes l) := by
  unfold stripEdgeDashes
  have h1 := h.suffix (List.dropWhile_suffix (fun c => c == '-'))
  have h2 : List.Chain' (fun a b => ¬(a = '-' ∧ b = '-'))
      (List.dropWhile (fun c => c == '-') l).reverse := by
    rw [List.chain'_reverse]
    exact h1.imp (fun a b hr hc => hr ⟨hc.2, hc.1⟩)
  have h3 := h2.suffix (List.dropWhile_suffix (fun c => c == '-'))
  rw [List.chain'_reverse]
  exact h3.imp (fun a b hr hc => hr ⟨hc.2, hc.1⟩)

theorem head?_dropWhile_false (p : Char → Bool) (l : List Char) (c : Char)
    (h : (List.dropWhile p l).head? = some c) : p c = false := by
  induction l with
  | nil => simp [List.dropWhile] at h
  | cons a r ih =>
    by_cases ha : p a = true
    · rw [List.dropWhile_cons_of_pos ha] at h
      exact ih h
    · rw [Bool.not_eq_true] at ha
      rw [List.dropWhile_cons_of_neg (by simp [ha])] at h
      rw [List.head?_cons] at h
      injection h with h
      subst h
      exact ha

theorem stripEdge_head (l : List Char) (c : Char)
    (h : (stripEdgeDashes l).head? = some c) : c ≠ '-' := by
  have hpre : stripEdgeDashes l <+: List.dropWhile (fun c => c == '-') l := by
    have h0 := List.reverse_prefix.mpr
      (List.dropWhile_suffix (fun c => c == '-')
        (l := (List.dropWhile (fun c => c == '-') l).reverse))
    rw [List.reverse_reverse] at h0
    exact h0
  obtain ⟨t, ht⟩ := hpre
  have hh : (List.dropWhile (fun c => c == '-') l).head? = some c := by
    rw [← ht, List.head?_append, h]
    rfl
  have := head?_dropWhile_false (fun c => c == '-') l c hh
  simpa using this

theorem stripEdge_last (l : List Char) (c : Char)
    (h : (stripEdgeDashes l).getLast? = some c) : c ≠ '-' := by
  unfold stripEdgeDashes at h
  rw [List.getLast?_reverse] at h
  have := head?_dropWhile_false (fun c => c == '-') _ c h
  simpa using this

theorem collapse_id (l : List Char)
    (hch : List.Chain' (fun a b => ¬(a = '-' ∧ b = '-')) l) :
    ∀ (prevDash : Bool), (prevDash = true → l.head? ≠ some '-') →
      collapseDashesAux prevDash l = l := by
  induction l with
  | nil =>
    intro prevDash _
    rfl
  | cons a r ih =>
    intro prevDash hhead
    obtain ⟨hrel, htail⟩ := List.chain'_cons'.mp hch
    by_cases ha : a = '-'
    · subst ha
      have hrh : r.head? ≠ some '-' := by
        intro hr
        rcases hr2 : r.head? with _ | y
        · rw [hr2] at hr
          exact absurd hr (by simp)
        · rw [hr2] at hr
          injection hr with hy
          exact hrel y (by rw [hr2]; rfl) ⟨rfl, hy⟩
      cases prevDash with
      | true => exact absurd rfl (hhead rfl)
      | false =>
        have hcr : collapseDashesAux true r = r := ih htail true (fun _ => hrh)
        simp [collapseDashesAux, hcr]
    · have ha' : (a == '-') = false := by simp [ha]
      have hcr : collapseDashesAux false r = r := ih htail false (by simp)
      simp [collapseDashesAux, ha', hcr]

theorem slugAccept_of (l : List Char)
    (hch : List.Chain' (fun a b => ¬(a = '-' ∧ b = '-')) l)
    (hgood : ∀ c ∈ l, isSlugChar c = true ∨ c = '-')
    (hlast : ∀ c, l.getLast? = some c → c ≠ '-') :
    slugAccept false l = true ∧
    ((∀ c, l.head? = some c → c ≠ '-') → l ≠ [] → slugAccept true l = true) := by
  induction l with
  | nil => exact ⟨rfl, fun _ h => absurd rfl h⟩
  | cons a r ih =>
    obtain ⟨hrel, htail⟩ := List.chain'_cons'.mp hch
    have htgood : ∀ c ∈ r, isSlugChar c = true ∨ c = '-' :=
      fun c hc => hgood c (List.mem_cons_of_mem a hc)
    have htlast : ∀ c, r.getLast? = some c → c ≠ '-' := by
      intro c hc
      apply hlast
      cases r with
      | nil => simp at hc
      | cons b t => rw [List.getLast?_cons_cons]; exact hc
    have ihr := ih htail htgood htlast
    rcases hgood a (List.mem_cons_self a r) with ha | ha
    · have ha' : (a == '-') = false := by
        simp [isSlugChar_ne_dash a ha]
      constructor
      · simp only [slugAccept, ha', Bool.false_eq_true, if_false, ha,
          Bool.true_and]
        exact ihr.1
      · intro _ _
        simp only [slugAccept, ha', Bool.false_eq_true, if_false, ha,
          Bool.true_and]
        exact ihr.1
    · subst ha
      have hr : r ≠ [] := by
        intro h0
        subst h0
        exact absurd rfl (hlast '-' rfl)
      have hrhead : ∀ c, r.head? = some c → c ≠ '-' := by
        intro c hc hcd
        subst hcd
        exact hrel '-' (by rw [hc]; rfl) ⟨rfl, rfl⟩
      constructor
      · simp only [slugAccept, if_pos rfl, Bool.not_false, Bool.true_and]
        exact ihr.2 hrhead hr
      · intro hhead _
        exact absurd rfl (hhead '-' rfl)

/-- C6: a non-empty `slugify` result contains only lowercase
alphanumerics and single internal dashes, with no leading or trailing
dash — it passes the GET route's slug pattern. -/
theorem slugify_shape (s : String) (_hne : s ≠ "") (h : slugify s ≠ "") :
    isValidSlug (slugify s) = true := by
  have hch := stripEdge_chain _
    (replaceRuns_chain (jsToLower (jsTrim s)).data false)
  have hgood : ∀ c ∈ stripEdgeDashes
      (replaceRunsAux false (jsToLower (jsTrim s)).data),
      isSlugChar c = true ∨ c = '-' :=
    fun c hc => replaceRuns_chars _ false c (stripEdge_subset _ hc)
  have hhead := stripEdge_head (replaceRunsAux false (jsToLower (jsTrim s)).data)
  have hlast := stripEdge_last (replaceRunsAux false (jsToLower (jsTrim s)).data)
  have hhead' : ∀ c, (stripEdgeDashes
      (replaceRunsAux false (jsToLower (jsTrim s)).data)).head? = some c →
      c ≠ '-' := fun c hc => hhead c hc
  have hcol : collapseDashesAux false (stripEdgeDashes
      (replaceRunsAux false (jsToLower (jsTrim s)).data)) = stripEdgeDashes
      (replaceRunsAux false (jsToLower (jsTrim s)).data) :=
    collapse_id _ hch false (by simp)
  have hdata : (slugify s).data = stripEdgeDashes
      (replaceRunsAux false (jsToLower (jsTrim s)).data) := by
    show (collapseDashesAux false _) = _
    exact hcol
  have hne2 : stripEdgeDashes
      (replaceRunsAux false (jsToLower (jsTrim s)).data) ≠ [] := by
    intro h0
    apply h
    show (⟨collapseDashesAux false _⟩ : String) = ""
    rw [h0]
    rfl
  show slugAccept true (slugify s).data = true
  rw [hdata]
  exact (slugAccept_of _ hch hgood (fun c hc => hlast c hc)).2 hhead' hne2

/-- Witness for C6 at the title `"Hello, World!"`. -/
theorem slugify_shape_witness :
    isValidSlug (slugify "Hello, World!") = true ∧
    slugify "Hello, World!" = "hello-world" :=
  ⟨slugify_shape "Hello, World!" (by decide) (by decide), by decide⟩

theorem digitChar_inj (a b : Nat) (ha : a < 10) (hb : b < 10)
    (h : digitChar a = digitChar b) : a = b := by
  interval_cases a <;> interval_cases b <;>
    first
      | rfl
      | exact absurd h (by decide)

theorem natDigits_inj (m : Nat) : ∀ n : Nat,
    natDigitsAux (m + 1) m = natDigitsAux (n + 1) n → m = n := by
  induction m using Nat.strong_induction_on with
  | _ m ih =>
    intro n h
    rw [natDigitsAux_unfold m, natDigitsAux_unfold n] at h
    by_cases hm : m < 10 <;> by_cases hn : n < 10
    · simp only [hm, hn, if_true] at h
      injection h with h _
      exact digitChar_inj m n hm hn h
    · exfalso
      simp only [hm, hn, if_true, if_false] at h
      have hlen := congrArg List.length h
      simp only [List.length_cons, List.length_nil, List.length_append] at hlen
      have hne := natDigitsAux_ne_nil (n / 10 + 1) (n / 10) (by omega)
      have : (natDigitsAux (n / 10 + 1) (n / 10)).length ≠ 0 := by
        intro h0
        exact hne (List.length_eq_zero.mp h0)
      omega
    · exfalso
      simp only [hm, hn, if_true, if_false] at h
      have hlen := congrArg List.length h
      simp only [List.length_cons, List.length_nil, List.length_append] at hlen
      have hne := natDigitsAux_ne_nil (m / 10 + 1) (m / 10) (by omega)
      have : (natDigitsAux (m / 10 + 1) (m / 10)).length ≠ 0 := by
        intro h0
        exact hne (List.length_eq_zero.mp h0)
      omega
    · simp only [hm, hn, if_false] at h
      obtain ⟨h1, h2⟩ := List.append_inj' h (by simp)
      have hdiv := ih (m / 10) (by omega) (n / 10) h1
      injection h2 with h2 _
      have hmod := digitChar_inj (m % 10) (n % 10) (by omega) (by omega) h2
      omega

theorem natToString_inj (m n : Nat) (h : natToString m = natToString n) :
    m = n := by
  unfold natToString at h
  injection h with h
  exact natDigits_inj m n h

theorem candAt_inj (base : String) (a b : Nat) (h : candAt base a = candAt base b) :
    a = b := by
  have hlen : ∀ k : Nat, 1 ≤ (natToString k).length := by
    intro k
    have := natDigitsAux_ne_nil (k + 1) k (by omega)
    have h0 : (natToString k).length = (natDigitsAux (k + 1) k).length := rfl
    rw [h0]
    cases hd : natDigitsAux (k + 1) k with
    | nil => exact absurd hd this
    | cons x t => simp
  cases a with
  | zero =>
    cases b with
    | zero => rfl
    | succ b0 =>
      exfalso
      have := congrArg String.length h
      rw [show candAt base 0 = base from rfl,
        show candAt base (b0 + 1) = base ++ "-" ++ natToString (b0 + 1) from rfl,
        String.length_append, String.length_append] at this
      have hb := hlen (b0 + 1)
      have hdash : ("-" : String).length = 1 := rfl
      omega
  | succ a0 =>
    cases b with
    | zero =>
      exfalso
      have := congrArg String.length h
      rw [show candAt base (a0 + 1) = base ++ "-" ++ natToString (a0 + 1) from rfl,
        show candAt base 0 = base from rfl,
        String.length_append, String.length_append] at this
      have ha := hlen (a0 + 1)
      have hdash : ("-" : String).length = 1 := rfl
      omega
    | succ b0 =>
      have hd := congrArg String.data h
      rw [show candAt base (a0 + 1) = base ++ "-" ++ natToString (a0 + 1) from rfl,
        show candAt base (b0 + 1) = base ++ "-" ++ natToString (b0 + 1) from rfl,
        String.data_append, String.data_append, String.data_append,
        String.data_append, List.append_assoc, List.append_assoc] at hd
      have hd2 := List.append_cancel_left hd
      have hd3 := List.append_cancel_left hd2
      have hinj := natDigits_inj (a0 + 1) (b0 + 1) hd3
      omega

theorem taken_bound (base : String) (taken : List String) (i : Nat)
    (htaken : ∀ j, j < i → candAt base j ∈ taken) : i ≤ taken.length := by
  have hnodup : ((List.range i).map (candAt base)).Nodup :=
    List.Nodup.map (fun a b h => candAt_inj base a b h) (List.nodup_range i)
  have hsub : (List.range i).map (candAt base) ⊆ taken := by
    intro x hx
    simp only [List.mem_map, List.mem_range] at hx
    obtain ⟨j, hj, rfl⟩ := hx
    exact htaken j hj
  have hle := (hnodup.subperm hsub).length_le
  simpa using hle

theorem pickLoop_spec (base : String) (taken : List String) (i : Nat)
    (hfree : candAt base i ∉ taken)
    (htaken : ∀ j, j < i → candAt base j ∈ taken) :
    ∀ fuel k, k ≤ i → i + 1 - k ≤ fuel →
      pickLoop base taken (candAt base k) (k + 1) fuel = candAt base i := by
  intro fuel
  induction fuel with
  | zero =>
    intro k hk hf
    omega
  | succ fuel ih =>
    intro k hk hf
    by_cases hki : k = i
    · subst hki
      simp only [pickLoop]
      rw [if_neg hfree]
    · have hmem := htaken k (by omega)
      simp only [pickLoop]
      rw [if_pos hmem]
      exact ih (k + 1) (by omega) (by omega)

theorem pickCandidate_spec (base : String) (taken : List String) :
    (base ∉ taken → pickCandidate base taken = base) ∧
    (∀ i, 1 ≤ i → (base ++ "-" ++ natToString i) ∉ taken →
      (∀ j, 1 ≤ j → j < i → (base ++ "-" ++ natToString j) ∈ taken) →
      base ∈ taken → pickCandidate base taken = base ++ "-" ++ natToString i) := by
  constructor
  · intro hfree
    unfold pickCandidate
    by_cases hemp : taken.isEmpty
    · rw [if_pos hemp]
    · rw [if_neg hemp]
      simp only [pickLoop]
      rw [if_neg hfree]
  · intro i hi hfree htaken hbase
    have htaken' : ∀ j, j < i → candAt base j ∈ taken := by
      intro j hj
      cases j with
      | zero => exact hbase
      | succ j0 => exact htaken (j0 + 1) (by omega) hj
    have hfree' : candAt base i ∉ taken := by
      cases i with
      | zero => omega
      | succ i0 => exact hfree
    have hbound : i ≤ taken.length := taken_bound base taken i htaken'
    have hne : taken.isEmpty = false := by
      cases taken with
      | nil => simp at hbase
      | cons a t => rfl
    unfold pickCandidate
    rw [hne]
    simp only [Bool.false_eq_true, if_false]
    have hspec := pickLoop_spec base taken i hfree' htaken'
      (taken.length + 1) 0 (by omega) (by omega)
    have hc0 : candAt base 0 = base := rfl
    rw [hc0] at hspec
    cases i with
    | zero => omega
    | succ i0 => exact hspec

theorem eventPreSave_title_only (parse : String → Option Int)
    (otherSlugs : List String) (e : EventDoc) (hbase : slugify e.title ≠ "") :
    eventPreSave parse true false false otherSlugs e =
      .ok { e with slug := (pickCandidate (slugify e.title)
        (otherSlugs.filter (fun s => matchBaseNum (slugify e.title) s))) } := by
  have hb : (slugify e.title == "") = false := by
    simp [hbase]
  simp [eventPreSave, hb, Bind.bind, Except.bind]

/-- C1: when a save regenerates the slug from a changed title with
non-empty base `b`, and `taken` is the set of other events' slugs
matching `^b(-\d+)?$`, the hook stores `b` itself when `b` is unused,
and otherwise `b-i` for the smallest positive `i` whose candidate is
unused. -/
theorem event_slug_uniqueness (parse : String → Option Int)
    (otherSlugs : List String) (e : EventDoc) (hbase : slugify e.title ≠ "") :
    (slugify e.title ∉
        otherSlugs.filter (fun s => matchBaseNum (slugify e.title) s) →
      eventPreSave parse true false false otherSlugs e =
        .ok { e with slug := slugify e.title }) ∧
    (∀ i, 1 ≤ i →
      (slugify e.title ++ "-" ++ natToString i) ∉
        otherSlugs.filter (fun s => matchBaseNum (slugify e.title) s) →
      (∀ j, 1 ≤ j → j < i → (slugify e.title ++ "-" ++ natToString j) ∈
        otherSlugs.filter (fun s => matchBaseNum (slugify e.title) s)) →
      slugify e.title ∈
        otherSlugs.filter (fun s => matchBaseNum (slugify e.title) s) →
      eventPreSave parse true false false otherSlugs e =
        .ok { e with slug := slugify e.title ++ "-" ++ natToString i }) := by
  constructor
  · intro hfree
    rw [eventPreSave_title_only parse otherSlugs e hbase,
      (pickCandidate_spec (slugify e.title) _).1 hfree]
  · intro i hi hfree htaken hbase2
    rw [eventPreSave_title_only parse otherSlugs e hbase,
      (pickCandidate_spec (slugify e.title) _).2 i hi hfree htaken hbase2]

/-- Witness for C1: with other events holding `"my-talk"` and
`"my-talk-1"`, a third event titled `"My Talk"` stores `"my-talk-2"`;
with no conflicting slug the base itself is stored. -/
theorem event_slug_uniqueness_witness :
    eventPreSave (fun _ => none) true false false ["my-talk", "my-talk-1"]
      sampleEvent = .ok { sampleEvent with slug := "my-talk-2" } ∧
    eventPreSave (fun _ => none) true false false ["other-talk"]
      sampleEvent = .ok { sampleEvent with slug := "my-talk" } :=
  ⟨(event_slug_uniqueness (fun _ => none) ["my-talk", "my-talk-1"] sampleEvent
      (by decide)).2 2 (by decide) (by decide)
      (by
        intro j h1 h2
        interval_cases j
        decide)
      (by decide),
   (event_slug_uniqueness (fun _ => none) ["other-talk"] sampleEvent
      (by decide)).1 (by decide)⟩

theorem pickLoop_shape (base : String) (taken : List String) :
    ∀ (fuel : Nat) (cand : String) (i : Nat), 1 ≤ i →
      (cand = base ∨ ∃ j, 1 ≤ j ∧ cand = base ++ "-" ++ natToString j) →
      (pickLoop base taken cand i fuel = base ∨
        ∃ j, 1 ≤ j ∧ pickLoop base taken cand i fuel = base ++ "-" ++ natToString j) := by
  intro fuel
  induction fuel with
  | zero =>
    intro cand i _ hc
    exact hc
  | succ fuel ih =>
    intro cand i hi hc
    simp only [pickLoop]
    by_cases hmem : cand ∈ taken
    · rw [if_pos hmem]
      exact ih (base ++ "-" ++ natToString i) (i + 1) (by omega)
        (Or.inr ⟨i, hi, rfl⟩)
    · rw [if_neg hmem]
      exact hc

theorem pickCandidate_shape (base : String) (taken : List String) :
    pickCandidate base taken = base ∨
      ∃ j, 1 ≤ j ∧ pickCandidate base taken = base ++ "-" ++ natToString j := by
  unfold pickCandidate
  by_cases hemp : taken.isEmpty
  · rw [if_pos hemp]
    exact Or.inl rfl
  · rw [if_neg hemp]
    exact pickLoop_shape base taken (taken.length + 1) base 1 (by omega)
      (Or.inl rfl)

theorem slugAccept_append (l1 : List Char) : ∀ (b : Bool) (l2 : List Char),
    slugAccept b l1 = true → slugAccept b (l1 ++ l2) = slugAccept false l2 := by
  induction l1 with
  | nil =>
    intro b l2 hb
    cases b with
    | true => simp [slugAccept] at hb
    | false => rfl
  | cons c r ih =>
    intro b l2 hb
    by_cases hc : (c == '-') = true
    · simp only [slugAccept, hc, if_true] at hb
      obtain ⟨hb1, hb2⟩ := Bool.and_eq_true_iff.mp hb
      simp only [List.cons_append, slugAccept, hc, if_true, hb1, Bool.true_and]
      exact ih true l2 hb2
    · have hc' : (c == '-') = false := by
        simpa using hc
      simp only [slugAccept, hc', Bool.false_eq_true, if_false] at hb
      obtain ⟨hb1, hb2⟩ := Bool.and_eq_true_iff.mp hb
      simp only [List.cons_append, slugAccept, hc', Bool.false_eq_true,
        if_false, hb1, Bool.true_and]
      exact ih false l2 hb2

theorem isSlugChar_of_digit (c : Char) (h : isDigitChar c = true) :
    isSlugChar c = true := by
  simp only [isDigitChar, Bool.and_eq_true, decide_eq_true_eq] at h
  simp only [isSlugChar, Bool.or_eq_true, Bool.and_eq_true, decide_eq_true_eq]
  exact Or.inr h

theorem digit_ne_dash (c : Char) (h : isDigitChar c = true) : (c == '-') = false := by
  simp only [isDigitChar, Bool.and_eq_true, decide_eq_true_eq] at h
  have : c ≠ '-' := by
    intro hc
    subst hc
    exact absurd h (by decide)
  simpa using this

theorem slugAccept_digits (l : List Char) (hdig : l.all isDigitChar = true) :
    slugAccept false l = true ∧ (l ≠ [] → slugAccept true l = true) := by
  induction l with
  | nil => exact ⟨rfl, fun h => absurd rfl h⟩
  | cons c r ih =>
    simp only [List.all_cons, Bool.and_eq_true] at hdig
    obtain ⟨hc, hr⟩ := hdig
    have ihr := ih hr
    constructor
    · simp only [slugAccept, digit_ne_dash c hc, Bool.false_eq_true, if_false,
        isSlugChar_of_digit c hc, Bool.true_and]
      exact ihr.1
    · intro _
      simp only [slugAccept, digit_ne_dash c hc, Bool.false_eq_true, if_false,
        isSlugChar_of_digit c hc, Bool.true_and]
      exact ihr.1

theorem isValidSlug_append_num (base : String) (hval : isValidSlug base = true)
    (j : Nat) : isValidSlug (base ++ "-" ++ natToString j) = true := by
  have hdata : (base ++ "-" ++ natToString j).data =
      base.data ++ ('-' :: (natToString j).data) := by
    rw [String.data_append, String.data_append, List.append_assoc]
    rfl
  show slugAccept true _ = true
  rw [hdata, slugAccept_append base.data true _ hval]
  have hdig : (natToString j).data.all isDigitChar = true :=
    natDigitsAux_all_digit (j + 1) j (by omega)
  have hne : (natToString j).data ≠ [] := natDigitsAux_ne_nil (j + 1) j (by omega)
  simp only [slugAccept, if_pos rfl]
  show (!false && slugAccept true (natToString j).data) = true
  simp only [Bool.not_false, Bool.true_and]
  exact (slugAccept_digits _ hdig).2 hne

/-- C10: every slug the event save hook can store — the non-empty
slugify base, optionally extended with a dash and a positive decimal
suffix — passes the GET route's slug pattern, so a persisted event is
reachable through `GET /api/events/:slug` without a 400 rejection. -/
theorem stored_slug_reachable (parse : String → Option Int) (md mt : Bool)
    (otherSlugs : List String) (e e' : EventDoc)
    (h : eventPreSave parse true md mt otherSlugs e = .ok e') :
    isValidSlug e'.slug = true := by
  by_cases hbase : slugify e.title = ""
  · rw [eventPreSave_error_of_base_empty parse md mt otherSlugs e hbase] at h
    simp at h
  · have htitle : e.title ≠ "" := by
      intro h0
      apply hbase
      rw [h0]
      rfl
    have hvalbase : isValidSlug (slugify e.title) = true :=
      slugify_shape e.title htitle hbase
    have hb : (slugify e.title == "") = false := by
      simp [hbase]
    have hslug : e'.slug = pickCandidate (slugify e.title)
        (otherSlugs.filter (fun s => matchBaseNum (slugify e.title) s)) := by
      simp only [eventPreSave, hb, Bool.false_eq_true, if_false, Bind.bind,
        Except.bind] at h
      repeat' split at h
      all_goals
        first
          | exact absurd trivial (by assumption)
          | exact Except.noConfusion h
          | (injection h with h
             rw [← h])
    rw [hslug]
    rcases pickCandidate_shape (slugify e.title)
        (otherSlugs.filter (fun s => matchBaseNum (slugify e.title) s)) with
      hsh | ⟨j, _, hsh⟩
    · rw [hsh]
      exact hvalbase
    · rw [hsh]
      exact isValidSlug_append_num (slugify e.title) hvalbase j

/-- Witness for C10: the slug stored for a third `"My Talk"` event,
`"my-talk-2"`, passes the route pattern. -/
theorem stored_slug_reachable_witness :
    isValidSlug (EventDoc.slug { sampleEvent with slug := "my-talk-2" }) = true :=
  stored_slug_reachable (fun _ => none) false false ["my-talk", "my-talk-1"]
    sampleEvent { sampleEvent with slug := "my-talk-2" } rfl
